import Mathlib

/-!
Verification development for the TelegramForwarderX repository.

Shallow embedding of the worker-orchestration layer
(`src/workers/worker_manager.py`), the message-processing pipeline
(`src/workers/forwarding_engine.py`), the per-worker forwarder with its
rate limiter and fail-open filters (`src/workers/message_forwarder.py`),
and the pending-message approval endpoints
(`src/server/api/pending_messages.py`).

Modelling conventions:
- Python dicts become association lists preserving insertion order;
  Python sets of session ids become duplicate-free lists (set.add is
  append-if-absent, set.discard is filter).
- Wall-clock timestamps (`time.time()`) are integers (seconds).
- Load scores `sessions/capacity*100 + (cpu+mem)/200*50` are exact
  rationals; the source computes them in floating point, which agrees on
  the small integer inputs used here.
- The regex engine (`re`) is external to the repository: a compiled
  pattern is abstracted as its observable behaviour (`sub`, `findall`,
  `search`), and a pattern that fails to compile (`re.error`) is `none`.
- Fallible Python code (exceptions) is embedded with `Except`.
-/

namespace TFX

/-! ## String helpers (Python `in`, `lower`, length) -/

/-- Python substring containment `needle in hay`, on character lists.
The empty needle is contained in everything, as in Python. -/
def listContainsSub (needle : List Char) : List Char → Bool
  | [] => needle.isEmpty
  | c :: t => needle.isPrefixOf (c :: t) || listContainsSub needle t

/-- Python `needle in hay` for strings. -/
def strContainsSub (hay needle : String) : Bool :=
  listContainsSub needle.toList hay.toList

/-! ## RateLimiter (`message_forwarder.py` lines 253-296)

`_create_rate_limiter` builds `{"messages": [], "max_per_minute": 30,
"max_per_hour": 1000}`; `_check_rate_limit` prunes timestamps at least
3600 seconds old, rejects when either ceiling is met, and otherwise
records the current timestamp and accepts. -/

structure RateLimiter where
  messages : List Int
  maxPerMinute : Nat
  maxPerHour : Nat
deriving Repr, DecidableEq

/-- Embeds `MessageForwarder._create_rate_limiter`. -/
def createRateLimiter : RateLimiter :=
  { messages := [], maxPerMinute := 30, maxPerHour := 1000 }

/-- Embeds `MessageForwarder._check_rate_limit` (the non-exception path):
prune (`current_time - msg_time < 3600` kept), reject if the minute window
(`msg_time > current_time - 60`) holds at least `max_per_minute` entries or
the pruned list holds at least `max_per_hour`, else append `now`. The
pruned list is stored back even on rejection, as in the source. -/
def checkRateLimit (rl : RateLimiter) (now : Int) : Bool × RateLimiter :=
  let pruned := rl.messages.filter (fun t => now - t < 3600)
  let recent := pruned.filter (fun t => now - 60 < t)
  if rl.maxPerMinute ≤ recent.length then
    (false, { rl with messages := pruned })
  else if rl.maxPerHour ≤ pruned.length then
    (false, { rl with messages := pruned })
  else
    (true, { rl with messages := pruned ++ [now] })

/-! ## Worker pool (`worker_manager.py`)

`WorkerManager` keeps `self.workers : Dict[worker_id, dict]` (each worker
dict holding `status`, `sessions : set`, `config["max_sessions"]`,
`stats["cpu_usage"]`, `stats["memory_usage"]`) and
`self.session_assignments : Dict[session_id, worker_id]`. Database writes,
logging and the per-worker `MessageForwarder` calls have no effect on this
state and are dropped; `start_forwarding`'s success is the `fwdOk`
parameter, and `ram_monitor.is_memory_critical()` is the `memCritical`
parameter. -/

inductive WStatus where
  | online
  | offline
deriving Repr, DecidableEq

structure Worker where
  id : String
  status : WStatus
  sessions : List String
  maxSessions : Nat
  cpu : Nat
  mem : Nat
deriving Repr, DecidableEq

structure Pool where
  workers : List Worker
  assignments : List (String × String)
deriving Repr, DecidableEq

/-- Python `set.add`: append if absent. -/
def sessAdd (l : List String) (s : String) : List String :=
  if l.contains s then l else l ++ [s]

/-- Python `set.discard`. -/
def sessDiscard (l : List String) (s : String) : List String :=
  l.filter (fun x => !(x == s))

/-- Dict lookup in `session_assignments` (keys are unique in a dict, so
first-match lookup is exact). -/
def alookup : List (String × String) → String → Option String
  | [], _ => none
  | kv :: t, sid => if kv.1 == sid then some kv.2 else alookup t sid

def assignLookup (p : Pool) (sid : String) : Option String :=
  alookup p.assignments sid

/-- Dict store `session_assignments[sid] = wid`: overwrite or append. -/
def assignSet (p : Pool) (sid wid : String) : Pool :=
  { p with assignments :=
      if p.assignments.any (fun kv => kv.1 == sid) then
        p.assignments.map (fun kv => if kv.1 == sid then (sid, wid) else kv)
      else p.assignments ++ [(sid, wid)] }

/-- Dict delete `del session_assignments[sid]`. -/
def assignRemove (p : Pool) (sid : String) : Pool :=
  { p with assignments := p.assignments.filter (fun kv => !(kv.1 == sid)) }

/-- Dict lookup in `self.workers`. -/
def wlookup : List Worker → String → Option Worker
  | [], _ => none
  | w :: t, wid => if w.id == wid then some w else wlookup t wid

def lookupWorker (p : Pool) (wid : String) : Option Worker :=
  wlookup p.workers wid

/-- Mutate the worker stored under `wid` (no-op when absent). -/
def updateWorker (p : Pool) (wid : String) (f : Worker → Worker) : Pool :=
  { p with workers := p.workers.map (fun w => if w.id == wid then f w else w) }

/-- Embeds `calculate_load` inside `_find_best_worker`:
`session_ratio * 100 + resource_load * 50` with
`session_ratio = sessions / max_sessions` and
`resource_load = (cpu + memory) / 200`. -/
def loadScore (w : Worker) : ℚ :=
  ((w.sessions.length : ℚ) / (w.maxSessions : ℚ)) * 100
    + (((w.cpu : ℚ) + (w.mem : ℚ)) / 200) * 50

/-- Stable insertion step for the load-score sort. -/
def insertByScore (w : Worker) : List Worker → List Worker
  | [] => [w]
  | v :: vs =>
      if loadScore w ≤ loadScore v then w :: v :: vs
      else v :: insertByScore w vs

/-- Stable sort ascending by load score, modelling Python's stable
`list.sort(key=calculate_load)`. -/
def sortByScore : List Worker → List Worker
  | [] => []
  | w :: ws => insertByScore w (sortByScore ws)

/-- Workers with `status == "online"`, in dict (creation) order. -/
def onlineWorkers (p : Pool) : List Worker :=
  p.workers.filter (fun w => w.status == WStatus.online)

/-- Embeds `WorkerManager._find_best_worker` (lines 376-412): rank Online
workers ascending by load score; `"premium"` takes the first; everyone
else takes the first unless memory is critical, in which case the worker
at index `min(n - 1, n // 2)` is taken. -/
def findBestWorker (memCritical : Bool) (userType : String) (p : Pool) :
    Option String :=
  let online := onlineWorkers p
  if online.isEmpty then none
  else
    let ranked := sortByScore online
    if userType == "premium" then
      (ranked.head?).map (fun w => w.id)
    else if memCritical then
      (ranked.get? (min (ranked.length - 1) (ranked.length / 2))).map
        (fun w => w.id)
    else
      (ranked.head?).map (fun w => w.id)

/-- The state mutation shared by `assign_session` and the manual
reassignment inside `_rebalance_sessions`:
`session_assignments[sid] = wid` then `workers[wid]["sessions"].add(sid)`. -/
def rawAssign (p : Pool) (sid wid : String) : Pool :=
  updateWorker (assignSet p sid wid) wid
    (fun w => { w with sessions := sessAdd w.sessions sid })

/-- Embeds `WorkerManager.assign_session` (lines 222-256). `fwdOk` stands
for the success of `forwarders[wid].start_forwarding`; on failure the
method returns `None` before touching any assignment state. -/
def assignSession (memCritical fwdOk : Bool) (sid userType : String)
    (p : Pool) : Option String × Pool :=
  match findBestWorker memCritical userType p with
  | none => (none, p)
  | some wid =>
      if fwdOk then (some wid, rawAssign p sid wid) else (none, p)

/-- Embeds `WorkerManager.unassign_session` (lines 258-283): look up the
owning worker, discard the session from its set, delete the assignment. -/
def unassignSession (sid : String) (p : Pool) : Pool :=
  match assignLookup p sid with
  | none => p
  | some wid =>
      assignRemove
        (updateWorker p wid
          (fun w => { w with sessions := sessDiscard w.sessions sid })) sid

/-- Embeds the state changes of `WorkerManager.stop_worker` up to line 210:
delete every owned session from `session_assignments` (lines 189-192), set
status offline, clear the session set and zero the resource stats
(lines 194-202). -/
def stopWorkerClear (wid : String) (p : Pool) : Pool :=
  match lookupWorker p wid with
  | none => p
  | some w =>
      updateWorker
        (w.sessions.foldl (fun acc sid => assignRemove acc sid) p) wid
        (fun v => { v with status := WStatus.offline, sessions := [],
                           cpu := 0, mem := 0 })

/-- Embeds `WorkerManager._reassign_worker_sessions` (lines 776-802):
iterate over the worker's CURRENT session set and call `assign_session`
for each, with the session's user type (`tierOf`). -/
def reassignWorkerSessions (memCritical fwdOk : Bool)
    (tierOf : String → String) (wid : String) (p : Pool) : Pool :=
  match lookupWorker p wid with
  | none => p
  | some w =>
      w.sessions.foldl
        (fun acc sid => (assignSession memCritical fwdOk sid (tierOf sid) acc).2)
        p

/-- Embeds `WorkerManager.stop_worker` (lines 170-220): the clearing phase
runs first, and only then is `_reassign_worker_sessions` invoked (line 213),
reading the already-cleared session set. -/
def stopWorker (memCritical fwdOk : Bool) (tierOf : String → String)
    (wid : String) (p : Pool) : Pool :=
  match lookupWorker p wid with
  | none => p
  | some _ =>
      reassignWorkerSessions memCritical fwdOk tierOf wid
        (stopWorkerClear wid p)

/-- One migration step of `_rebalance_sessions`: move the first session of
an overloaded worker to the fixed underloaded target
(`unassign_session` followed by the manual assignment on lines 660-661). -/
def rebalanceMove (target : String) (p : Pool) (owid : String) : Pool :=
  match lookupWorker p owid with
  | none => p
  | some ow =>
      match ow.sessions with
      | [] => p
      | sid :: _ => rawAssign (unassignSession sid p) sid target

/-- Embeds `WorkerManager._rebalance_sessions` (lines 627-672): compute
online load ratios, do nothing with fewer than two online workers, find
workers more than 0.2 above / below the average ratio, and move one
session from each overloaded worker to the first underloaded worker. -/
def rebalanceSessions (p : Pool) : Pool :=
  let loads : List (String × ℚ) :=
    (onlineWorkers p).map
      (fun w => (w.id, (w.sessions.length : ℚ) / (w.maxSessions : ℚ)))
  if loads.length < 2 then p
  else
    let avg : ℚ := (loads.map (fun x => x.2)).sum / (loads.length : ℚ)
    let overloaded := (loads.filter (fun x => avg + 1/5 < x.2)).map (fun x => x.1)
    let underloaded := (loads.filter (fun x => x.2 < avg - 1/5)).map (fun x => x.1)
    match underloaded with
    | [] => p
    | target :: _ => overloaded.foldl (rebalanceMove target) p

/-! ## Filter chain (`forwarding_engine.py`, `MessageProcessor._apply_filters`)

The rejection reasons are represented by constructors carrying the data
interpolated into the source's f-strings:
`typeNotAllowed mt`   ~ f"Message type '{mt}' not allowed",
`containsUrls`        ~ "Message contains URLs",
`forwardedBlocked`    ~ "Forwarded messages blocked",
`tooShort n`          ~ f"Message too short (min: {n})",
`tooLong n`           ~ f"Message too long (max: {n})",
`missingRequiredKeywords ks` ~ f"Missing required keywords: {ks}",
`noRequiredKeywords`  ~ "No required keywords found",
`containsExcludedKeywords ks` ~ f"Contains excluded keywords: {ks}",
`senderNotAllowed`    ~ "Sender not in allowed users list",
`senderBlocked`       ~ "Sender is blocked".
A result of `none` is the dict `{"passed": True, "reason": None}`, and
`some r` is `{"passed": False, "reason": r}`. -/

inductive FilterReason where
  | typeNotAllowed (mt : String)
  | containsUrls
  | forwardedBlocked
  | tooShort (minLen : Nat)
  | tooLong (maxLen : Nat)
  | missingRequiredKeywords (ks : List String)
  | noRequiredKeywords
  | containsExcludedKeywords (ks : List String)
  | senderNotAllowed
  | senderBlocked
deriving Repr, DecidableEq

/-- The message fields `_apply_filters` reads: the extracted text, the
type string from `_get_message_type`, `message.fwd_from` truthiness and
`message.sender_id` (of which `0` and `None` are falsy). -/
structure FMessage where
  text : String
  messageType : String
  fwdFrom : Bool
  senderId : Option Int
deriving Repr, DecidableEq

/-- The filter configuration dict with the defaults `_apply_filters`
supplies through `.get`. -/
structure FilterConfig where
  allowedMessageTypes : List String
  blockUrls : Bool
  blockForwards : Bool
  minMessageLength : Nat
  maxMessageLength : Nat
  includeKeywords : List String
  excludeKeywords : List String
  caseSensitive : Bool
  keywordMatchMode : String
  allowedUserIds : List String
  blockedUserIds : List String
deriving Repr, DecidableEq

/-- Embeds `MessageProcessor._apply_filters` (lines 136-202), with
`urlSearch` abstracting `self.url_pattern.search` of the fixed URL regex.
The stage order is exactly the source's: message type, URL block, forward
block, min length, max length, include keywords, exclude keywords, sender
allow list, sender block list. There is no time-window stage. -/
def applyFilters (urlSearch : String → Bool) (m : FMessage)
    (f : FilterConfig) : Option FilterReason :=
  if !f.allowedMessageTypes.isEmpty
      && !(f.allowedMessageTypes.contains m.messageType) then
    some (.typeNotAllowed m.messageType)
  else if f.blockUrls && urlSearch m.text then
    some .containsUrls
  else if f.blockForwards && m.fwdFrom then
    some .forwardedBlocked
  else if m.text.length < f.minMessageLength then
    some (.tooShort f.minMessageLength)
  else if m.text.length > f.maxMessageLength then
    some (.tooLong f.maxMessageLength)
  else
    let searchText := if f.caseSensitive then m.text else m.text.toLower
    let inclRes : Option FilterReason :=
      if !f.includeKeywords.isEmpty then
        let keywords := if f.caseSensitive then f.includeKeywords
                        else f.includeKeywords.map String.toLower
        if f.keywordMatchMode == "all" then
          let missing := keywords.filter (fun k => !strContainsSub searchText k)
          if !missing.isEmpty then some (.missingRequiredKeywords missing)
          else none
        else if !(keywords.any (fun k => strContainsSub searchText k)) then
          some .noRequiredKeywords
        else none
      else none
    match inclRes with
    | some r => some r
    | none =>
      let exclRes : Option FilterReason :=
        if !f.excludeKeywords.isEmpty then
          let keywords := if f.caseSensitive then f.excludeKeywords
                          else f.excludeKeywords.map String.toLower
          let found := keywords.filter (fun k => strContainsSub searchText k)
          if !found.isEmpty then some (.containsExcludedKeywords found)
          else none
        else none
      match exclRes with
      | some r => some r
      | none =>
        match m.senderId with
        | some sv =>
            if sv != 0 then
              if !f.allowedUserIds.isEmpty
                  && !(f.allowedUserIds.contains (toString sv)) then
                some .senderNotAllowed
              else if !f.blockedUserIds.isEmpty
                  && f.blockedUserIds.contains (toString sv) then
                some .senderBlocked
              else none
            else none
        | none => none

/-! A second, spec-side description of the chain: a list of independent
stages evaluated in order, short-circuiting on the first violation. The
stage predicates follow the spec's wording for each rule, in the order the
code actually uses. -/

def stMessageType (m : FMessage) (f : FilterConfig) : Option FilterReason :=
  if !f.allowedMessageTypes.isEmpty
      && !(f.allowedMessageTypes.contains m.messageType) then
    some (.typeNotAllowed m.messageType)
  else none

def stBlockUrls (urlSearch : String → Bool) (m : FMessage)
    (f : FilterConfig) : Option FilterReason :=
  if f.blockUrls && urlSearch m.text then some .containsUrls else none

def stBlockForwards (m : FMessage) (f : FilterConfig) : Option FilterReason :=
  if f.blockForwards && m.fwdFrom then some .forwardedBlocked else none

def stMinLength (m : FMessage) (f : FilterConfig) : Option FilterReason :=
  if m.text.length < f.minMessageLength then some (.tooShort f.minMessageLength)
  else none

def stMaxLength (m : FMessage) (f : FilterConfig) : Option FilterReason :=
  if m.text.length > f.maxMessageLength then some (.tooLong f.maxMessageLength)
  else none

def stIncludeKeywords (m : FMessage) (f : FilterConfig) : Option FilterReason :=
  if !f.includeKeywords.isEmpty then
    if f.keywordMatchMode == "all" then
      if !((if f.caseSensitive then f.includeKeywords
            else f.includeKeywords.map String.toLower).filter
            (fun k => !strContainsSub
              (if f.caseSensitive then m.text else m.text.toLower) k)).isEmpty
      then
        some (.missingRequiredKeywords
          ((if f.caseSensitive then f.includeKeywords
            else f.includeKeywords.map String.toLower).filter
            (fun k => !strContainsSub
              (if f.caseSensitive then m.text else m.text.toLower) k)))
      else none
    else if !((if f.caseSensitive then f.includeKeywords
               else f.includeKeywords.map String.toLower).any
               (fun k => strContainsSub
                 (if f.caseSensitive then m.text else m.text.toLower) k)) then
      some .noRequiredKeywords
    else none
  else none

def stExcludeKeywords (m : FMessage) (f : FilterConfig) : Option FilterReason :=
  if !f.excludeKeywords.isEmpty then
    if !((if f.caseSensitive then f.excludeKeywords
          else f.excludeKeywords.map String.toLower).filter
          (fun k => strContainsSub
            (if f.caseSensitive then m.text else m.text.toLower) k)).isEmpty
    then
      some (.containsExcludedKeywords
        ((if f.caseSensitive then f.excludeKeywords
          else f.excludeKeywords.map String.toLower).filter
          (fun k => strContainsSub
            (if f.caseSensitive then m.text else m.text.toLower) k)))
    else none
  else none

def stSenderAllowed (m : FMessage) (f : FilterConfig) : Option FilterReason :=
  match m.senderId with
  | some sv =>
      if sv != 0 then
        if !f.allowedUserIds.isEmpty
            && !(f.allowedUserIds.contains (toString sv)) then
          some .senderNotAllowed
        else none
      else none
  | none => none

def stSenderBlocked (m : FMessage) (f : FilterConfig) : Option FilterReason :=
  match m.senderId with
  | some sv =>
      if sv != 0 then
        if !f.blockedUserIds.isEmpty
            && f.blockedUserIds.contains (toString sv) then
          some .senderBlocked
        else none
      else none
  | none => none

/-- The chain in the order the source evaluates. -/
def filterChainSpec (urlSearch : String → Bool) (m : FMessage)
    (f : FilterConfig) : List (Option FilterReason) :=
  [stMessageType m f, stBlockUrls urlSearch m f, stBlockForwards m f,
   stMinLength m f, stMaxLength m f, stIncludeKeywords m f,
   stExcludeKeywords m f, stSenderAllowed m f, stSenderBlocked m f]

/-- Short-circuit evaluation: the first violated stage's reason. -/
def firstViolation : List (Option FilterReason) → Option FilterReason
  | [] => none
  | some r :: _ => some r
  | none :: rest => firstViolation rest

/-! ## Edit pipeline (`forwarding_engine.py`, `MessageProcessor._apply_editing`
and `_apply_regex_rules`)

A compiled regex is abstracted by its observable behaviour; a rule whose
`re.compile` raised `re.error` carries `compiled = none` and is skipped
with `continue` (lines 286-288). -/

structure CompiledPattern where
  subst : String → String → String
  findAll : String → List String
  search : String → Bool

inductive RuleType where
  | find_replace
  | remove
  | extract
  | conditional_replace
deriving Repr, DecidableEq

structure RegexRule where
  pattern : String
  replacement : Option String
  ruleType : RuleType
  caseSensitive : Bool
  compiled : Option CompiledPattern

/-- One iteration of the rule loop in `_apply_regex_rules` (lines 268-288):
a rule that failed to compile leaves the text unchanged (`continue`);
otherwise dispatch on `rule_type`, with `rule['replacement'] or ''`
defaulting a missing replacement to the empty string. -/
def applyRegexRule (t : String) (r : RegexRule) : String :=
  match r.compiled with
  | none => t
  | some p =>
      match r.ruleType with
      | .find_replace => p.subst (r.replacement.getD "") t
      | .remove => p.subst "" t
      | .extract =>
          let ms := p.findAll t
          if ms.isEmpty then t else String.intercalate " " ms
      | .conditional_replace =>
          if p.search t then p.subst (r.replacement.getD "") t else t

/-- Embeds the rule loop of `_apply_regex_rules`: active rules, in
`order_index` order, folded over the text. -/
def applyRegexRules (rules : List RegexRule) (t : String) : String :=
  rules.foldl applyRegexRule t

/-- The `editing` dict of a mapping as read in `_apply_editing`; literal
replacements keep dict insertion order. -/
structure EditConfig where
  headerText : Option String
  footerText : Option String
  removeSenderInfo : Bool
  removeUrls : Bool
  removeHashtags : Bool
  removeMentions : Bool
  textReplacements : List (String × String)

/-- The fixed `url_pattern.sub("")`, `hashtag_pattern.sub("")` and
`mention_pattern.sub("")` of `MessageProcessor.__init__`, abstracted as
string transformers. -/
structure EditPrims where
  urlSub : String → String
  hashtagSub : String → String
  mentionSub : String → String

/-- Python `\s` on the character sets the source texts use. -/
def pyIsSpace (c : Char) : Bool :=
  c == ' ' || c == '\t' || c == '\n' || c == '\r' || c == '\x0b' || c == '\x0c'

/-- Collapse each maximal whitespace run to a single space,
modelling `re.sub(r"\s+", " ", text)`. -/
def collapseWs : List Char → List Char
  | [] => []
  | c :: rest =>
      let r := collapseWs rest
      if pyIsSpace c then
        match r with
        | ' ' :: r2 => ' ' :: r2
        | _ => ' ' :: r
      else c :: r

/-- Python `str.strip()`. -/
def stripWs (l : List Char) : List Char :=
  ((l.dropWhile pyIsSpace).reverse.dropWhile pyIsSpace).reverse

/-- Embeds `re.sub(r"\s+", " ", processed_text).strip()` (line 236). -/
def normalizeWs (s : String) : String :=
  String.mk (stripWs (collapseWs s.toList))

/-- Embeds `MessageProcessor._apply_editing` (lines 204-248): regex rules
first, then the structural removals (the `removeSenderInfo` branch is a
`pass` in the source), then literal replacements, whitespace
normalization, and finally header and footer (empty strings are falsy
in Python and attach nothing). -/
def applyEditing (prims : EditPrims) (rules : List RegexRule)
    (cfg : EditConfig) (text : String) : String :=
  let t1 := applyRegexRules rules text
  let t2 := if cfg.removeUrls then prims.urlSub t1 else t1
  let t3 := if cfg.removeHashtags then prims.hashtagSub t2 else t2
  let t4 := if cfg.removeMentions then prims.mentionSub t3 else t3
  let t5 := cfg.textReplacements.foldl
    (fun acc fr => acc.replace fr.1 fr.2) t4
  let t6 := normalizeWs t5
  let t7 := match cfg.headerText with
    | some h => if h.isEmpty then t6 else h ++ "\n\n" ++ t6
    | none => t6
  match cfg.footerText with
  | some f => if f.isEmpty then t7 else t7 ++ "\n\n" ++ f
  | none => t7

/-! ## Fail-open filters (`message_forwarder.py`,
`MessageForwarder._apply_message_filters`)

The body runs under `try`; any exception is caught and the method returns
`True` ("Default to allowing message if filter fails", line 251). The body
is embedded as `applyMessageFiltersCore : ... → Except String Bool` and
the method as the wrapper mapping `error` to `true`. -/

structure SenderInfo where
  username : Option String
  sid : Option Int
deriving Repr, DecidableEq

/-- The message fields `_apply_message_filters` reads. `sender` is the
result of `message.get_sender()`. -/
structure FwdMessage where
  text : Option String
  media : Bool
  photo : Bool
  video : Bool
  document : Bool
  sender : Option SenderInfo
deriving Repr, DecidableEq

structure KeywordGroups where
  includeWords : Option (List String)
  excludeWords : Option (List String)
deriving Repr, DecidableEq

structure TimeRestrict where
  startTime : Option String
  endTime : Option String
deriving Repr, DecidableEq

/-- The loosely-typed `filters` dict: `Option` marks `"key" in filters`;
`media_only` and `text_only` are read with `.get(..., False)`. -/
structure FwdFilters where
  keywords : Option KeywordGroups
  mediaTypes : Option (List String)
  mediaOnly : Bool
  textOnly : Bool
  minLength : Option Nat
  maxLength : Option Nat
  allowedSenders : Option (List String)
  timeRestrictions : Option TimeRestrict
deriving Repr, DecidableEq

/-- Python truthiness of `message.text` (None and "" are falsy). -/
def textTruthy (t : Option String) : Bool :=
  match t with
  | some s => !s.isEmpty
  | none => false

/-- Python `str(x)` for an optional integer (`str(None) = "None"`). -/
def pyStrOptInt (o : Option Int) : String :=
  match o with
  | some i => toString i
  | none => "None"

/-- Split a character list on colons (helper for `parseHM`); the result
is always non-empty. -/
def splitColon : List Char → List (List Char)
  | [] => [[]]
  | c :: t =>
      match splitColon t with
      | [] => if c == ':' then [[], []] else [[c]]
      | h :: r => if c == ':' then [] :: h :: r else (c :: h) :: r

/-- Decimal value of a digit list. -/
def digitsVal (l : List Char) : Nat :=
  l.foldl (fun a c => a * 10 + (c.toNat - 48)) 0

/-- Models `datetime.strptime(s, "%H:%M").time()`: one or two digits for
the hour (0-23) and minute (0-59), separated by a colon; anything else
raises `ValueError`, embedded as `error`. -/
def parseHM (s : String) : Except String (Nat × Nat) :=
  match splitColon s.toList with
  | [hs, ms] =>
      if !hs.isEmpty && hs.all Char.isDigit && !ms.isEmpty
          && ms.all Char.isDigit && hs.length ≤ 2 && ms.length ≤ 2
          && digitsVal hs < 24 && digitsVal ms < 60 then
        Except.ok (digitsVal hs, digitsVal ms)
      else Except.error ("time data " ++ s ++ " does not match format")
  | _ => Except.error ("time data " ++ s ++ " does not match format")

/-- Embeds the `try` body of `_apply_message_filters` (lines 162-247).
`nowSecs` is `datetime.now().time()` as seconds of the day. An uncaught
exception (here: `strptime` on a malformed time string) is `error`. -/
def applyMessageFiltersCore (m : FwdMessage) (f : FwdFilters)
    (nowSecs : Nat) : Except String Bool := do
  match f.keywords with
  | some kw =>
      if textTruthy m.text then
        let txt := (m.text.getD "").toLower
        match kw.includeWords with
        | some incl =>
            if !((incl.map String.toLower).any
                (fun w => strContainsSub txt w)) then
              return false
        | none => pure ()
        match kw.excludeWords with
        | some excl =>
            if (excl.map String.toLower).any
                (fun w => strContainsSub txt w) then
              return false
        | none => pure ()
      else pure ()
  | none => pure ()
  match f.mediaTypes with
  | some mts =>
      if !mts.isEmpty then
        if mts.contains "photos" && m.photo then pure ()
        else if mts.contains "videos" && m.video then pure ()
        else if mts.contains "documents" && m.document then pure ()
        else if mts.contains "text_only" && !m.media then pure ()
        else return false
      else pure ()
  | none => pure ()
  if f.mediaOnly && !m.media then
    return false
  if f.textOnly && m.media then
    return false
  match f.minLength with
  | some ml =>
      if textTruthy m.text && decide ((m.text.getD "").length < ml) then
        return false
  | none => pure ()
  match f.maxLength with
  | some ml =>
      if textTruthy m.text && decide (ml < (m.text.getD "").length) then
        return false
  | none => pure ()
  match f.allowedSenders with
  | some senders =>
      if !senders.isEmpty then
        match m.sender with
        | some snd =>
            let unameOk := match snd.username with
              | some u => senders.contains u
              | none => false
            if !(unameOk || senders.contains (pyStrOptInt snd.sid)) then
              return false
        | none => pure ()
      else pure ()
  | none => pure ()
  match f.timeRestrictions with
  | some tr =>
      match tr.startTime, tr.endTime with
      | some st, some et =>
          let s ← parseHM st
          let e ← parseHM et
          let sSecs := s.1 * 3600 + s.2 * 60
          let eSecs := e.1 * 3600 + e.2 * 60
          if sSecs ≤ eSecs then
            if !(sSecs ≤ nowSecs && nowSecs ≤ eSecs) then
              return false
            else pure ()
          else if !(sSecs ≤ nowSecs || nowSecs ≤ eSecs) then
            return false
          else pure ()
      | _, _ => pure ()
  | none => pure ()
  return true

/-- Embeds `MessageForwarder._apply_message_filters` with its
`except`-clause: an exception makes the filter pass (line 251). -/
def applyMessageFilters (m : FwdMessage) (f : FwdFilters)
    (nowSecs : Nat) : Bool :=
  match applyMessageFiltersCore m f nowSecs with
  | Except.ok b => b
  | Except.error _ => true

inductive FwdOutcome where
  | dropped
  | filteredOut
  | forwarded
deriving Repr, DecidableEq

/-- The decision structure of `MessageForwarder._handle_message`
(lines 116-134): rate-limit check, then filters, then forward. -/
def handleMessageOutcome (rateOk : Bool) (m : FwdMessage) (f : FwdFilters)
    (nowSecs : Nat) : FwdOutcome :=
  if !rateOk then FwdOutcome.dropped
  else if !(applyMessageFilters m f nowSecs) then FwdOutcome.filteredOut
  else FwdOutcome.forwarded

/-! ## Pending messages (`server/api/pending_messages.py`)

`approve_message` / `reject_message` first fetch the row
`WHERE id = ? AND user_id = ? AND status = 'pending'`; a missing row is a
404 with no update; otherwise the row is updated to the terminal state. -/

structure PendingMessage where
  id : String
  userId : String
  status : String
  approvedBy : Option String
  approvedAt : Option Int
  approvalComment : Option String
  rejectionReason : Option String
  updatedAt : Option Int
deriving Repr, DecidableEq

inductive ApiResult where
  | ok
  | notFound
deriving Repr, DecidableEq

/-- Embeds `approve_message` (lines 106-153) over a pending-message table. -/
def approveMessage (store : List PendingMessage) (mid uid : String)
    (comment : Option String) (now : Int) : ApiResult × List PendingMessage :=
  match store.find?
      (fun m => m.id == mid && m.userId == uid && m.status == "pending") with
  | none => (ApiResult.notFound, store)
  | some _ =>
      (ApiResult.ok, store.map (fun m =>
        if m.id == mid then
          { m with status := "approved", approvedBy := some uid,
                   approvedAt := some now, approvalComment := comment,
                   updatedAt := some now }
        else m))

/-- Embeds `reject_message` (lines 155-200). -/
def rejectMessage (store : List PendingMessage) (mid uid : String)
    (comment : Option String) (now : Int) : ApiResult × List PendingMessage :=
  match store.find?
      (fun m => m.id == mid && m.userId == uid && m.status == "pending") with
  | none => (ApiResult.notFound, store)
  | some _ =>
      (ApiResult.ok, store.map (fun m =>
        if m.id == mid then
          { m with status := "rejected", approvedBy := some uid,
                   approvedAt := some now, rejectionReason := comment,
                   updatedAt := some now }
        else m))

/-! ## Theorems -/

/-- C8: for every session limiter, `check()` first prunes timestamps at
least 3600s old; it then rejects when the count of timestamps within the
last 60s has reached the per-minute ceiling 30 or the pruned count has
reached the per-hour ceiling 1000, and otherwise records the current
timestamp and accepts. In particular, after 30 accepted sends within the
last 60 seconds the next check rejects, and once the 60-second window has
rolled past every recorded send (and the hour ceiling is clear) it accepts
again. -/
theorem checkRateLimit_spec (rl : RateLimiter) (now : Int)
    (hm : rl.maxPerMinute = 30) (hh : rl.maxPerHour = 1000) :
    ((30 ≤ ((rl.messages.filter (fun t => now - t < 3600)).filter
          (fun t => now - 60 < t)).length ∨
        1000 ≤ (rl.messages.filter (fun t => now - t < 3600)).length) →
      checkRateLimit rl now =
        (false, { rl with
          messages := rl.messages.filter (fun t => now - t < 3600) })) ∧
    (((rl.messages.filter (fun t => now - t < 3600)).filter
          (fun t => now - 60 < t)).length < 30 →
      (rl.messages.filter (fun t => now - t < 3600)).length < 1000 →
      checkRateLimit rl now =
        (true, { rl with
          messages :=
            rl.messages.filter (fun t => now - t < 3600) ++ [now] })) ∧
    (30 ≤ (rl.messages.filter (fun t => now - 60 < t)).length →
      (checkRateLimit rl now).1 = false) ∧
    ((∀ t ∈ rl.messages, t ≤ now - 60) →
      (rl.messages.filter (fun t => now - t < 3600)).length < 1000 →
      (checkRateLimit rl now).1 = true) := by
  have hsub : (rl.messages.filter (fun t => now - t < 3600)).filter
      (fun t => now - 60 < t) = rl.messages.filter (fun t => now - 60 < t) := by
    rw [List.filter_filter]
    apply List.filter_congr
    intro t _
    by_cases h : now - 60 < t
    · have h2 : now - t < 3600 := by omega
      simp [h, h2]
    · simp [h]
  refine ⟨?_, ?_, ?_, ?_⟩
  · intro h
    unfold checkRateLimit
    rcases h with h | h
    · simp only [hm, hh]
      rw [if_pos h]
    · simp only [hm, hh]
      by_cases h1 : 30 ≤ ((rl.messages.filter (fun t => now - t < 3600)).filter
          (fun t => now - 60 < t)).length
      · rw [if_pos h1]
      · rw [if_neg h1, if_pos h]
  · intro h1 h2
    unfold checkRateLimit
    simp only [hm, hh]
    rw [if_neg (by omega), if_neg (by omega)]
  · intro h
    rw [← hsub] at h
    unfold checkRateLimit
    simp only [hm, hh]
    rw [if_pos h]
  · intro hall hlen
    have hempty : (rl.messages.filter (fun t => now - t < 3600)).filter
        (fun t => now - 60 < t) = [] := by
      rw [hsub]
      rw [List.filter_eq_nil_iff]
      intro t ht
      have := hall t ht
      simp only [decide_eq_true_eq]
      omega
    unfold checkRateLimit
    simp only [hm, hh]
    rw [hempty]
    rw [if_neg (by simp), if_neg (by omega)]

/-- A limiter that has recorded 30 sends at time 100. -/
def rlFull : RateLimiter :=
  { messages := List.replicate 30 (100 : Int),
    maxPerMinute := 30, maxPerHour := 1000 }

/-- C8 witness: with 30 sends recorded at time 100, the check at time 100
rejects; with the same sends, the check at time 200 (window rolled over)
accepts. -/
theorem checkRateLimit_spec_witness :
    (checkRateLimit rlFull 100).1 = false ∧
    (checkRateLimit rlFull 200).1 = true := by
  constructor
  · exact (checkRateLimit_spec rlFull 100 rfl rfl).2.2.1 (by decide)
  · exact (checkRateLimit_spec rlFull 200 rfl rfl).2.2.2 (by decide) (by decide)

/-- C6: when both header `H` and footer `F` are set (non-empty), the edit
pipeline's output is exactly `H`, a blank line, some middle text, a blank
line and `F` — header and footer are attached after every other edit step,
so no regex rule, structural removal, replacement or whitespace
normalization can touch them. -/
theorem applyEditing_header_footer (prims : EditPrims)
    (rules : List RegexRule) (cfg : EditConfig) (text H F : String)
    (hH : cfg.headerText = some H) (hHne : H ≠ "")
    (hF : cfg.footerText = some F) (hFne : F ≠ "") :
    ∃ mid, applyEditing prims rules cfg text =
      H ++ "\n\n" ++ mid ++ "\n\n" ++ F := by
  have hHe : H.isEmpty = false := by
    rw [Bool.eq_false_iff]
    intro hx
    exact hHne ((String.isEmpty_iff H).mp hx)
  have hFe : F.isEmpty = false := by
    rw [Bool.eq_false_iff]
    intro hx
    exact hFne ((String.isEmpty_iff F).mp hx)
  refine ⟨normalizeWs
    ((cfg.textReplacements.foldl (fun acc fr => acc.replace fr.1 fr.2)
      (if cfg.removeMentions then
        prims.mentionSub
          (if cfg.removeHashtags then
            prims.hashtagSub
              (if cfg.removeUrls then
                prims.urlSub (applyRegexRules rules text)
              else applyRegexRules rules text)
          else
            (if cfg.removeUrls then
              prims.urlSub (applyRegexRules rules text)
            else applyRegexRules rules text))
      else
        (if cfg.removeHashtags then
          prims.hashtagSub
            (if cfg.removeUrls then
              prims.urlSub (applyRegexRules rules text)
            else applyRegexRules rules text)
        else
          (if cfg.removeUrls then
            prims.urlSub (applyRegexRules rules text)
          else applyRegexRules rules text))))), ?_⟩
  unfold applyEditing
  rw [hH, hF]
  simp only [hHe, hFe, Bool.false_eq_true, if_false]

/-- A sample edit configuration with header and footer set. -/
def cfgHF : EditConfig :=
  { headerText := some "HEAD", footerText := some "FOOT",
    removeSenderInfo := false, removeUrls := false,
    removeHashtags := false, removeMentions := false,
    textReplacements := [] }

/-- Identity stand-ins for the fixed URL/hashtag/mention patterns. -/
def primsId : EditPrims :=
  { urlSub := fun t => t, hashtagSub := fun t => t, mentionSub := fun t => t }

/-- C6 witness at a concrete configuration and input. -/
theorem applyEditing_header_footer_witness :
    ∃ mid, applyEditing primsId [] cfgHF "hello world" =
      "HEAD" ++ "\n\n" ++ mid ++ "\n\n" ++ "FOOT" :=
  applyEditing_header_footer primsId [] cfgHF "hello world" "HEAD" "FOOT"
    rfl (by decide) rfl (by decide)

/-- C7: a regex rule whose pattern failed to compile is skipped: the rule
list with the invalid rule produces exactly the text the list without it
produces, so every earlier rule's effect is kept, every later rule still
applies, and the whole edit pipeline (structural edits included) behaves
as if the invalid rule were absent. -/
theorem invalid_rule_skipped (pre post : List RegexRule) (bad : RegexRule)
    (hbad : bad.compiled = none) (prims : EditPrims) (cfg : EditConfig)
    (t : String) :
    applyRegexRules (pre ++ bad :: post) t = applyRegexRules (pre ++ post) t ∧
    applyEditing prims (pre ++ bad :: post) cfg t =
      applyEditing prims (pre ++ post) cfg t := by
  have key : applyRegexRules (pre ++ bad :: post) t =
      applyRegexRules (pre ++ post) t := by
    unfold applyRegexRules
    rw [List.foldl_append, List.foldl_append, List.foldl_cons]
    have : applyRegexRule (List.foldl applyRegexRule t pre) bad =
        List.foldl applyRegexRule t pre := by
      unfold applyRegexRule
      rw [hbad]
    rw [this]
  refine ⟨key, ?_⟩
  unfold applyEditing
  rw [key]

/-- A rule with an uncompilable pattern (as with `re.compile("[")`). -/
def badRule : RegexRule :=
  { pattern := "[", replacement := some "x", ruleType := RuleType.find_replace,
    caseSensitive := false, compiled := none }

/-- A valid rule whose compiled pattern replaces every "a". -/
def ruleA : RegexRule :=
  { pattern := "a", replacement := some "b", ruleType := RuleType.find_replace,
    caseSensitive := true,
    compiled := some
      { subst := fun rep t => t.replace "a" rep,
        findAll := fun t => if strContainsSub t "a" then ["a"] else [],
        search := fun t => strContainsSub t "a" } }

/-- C7 witness: with a valid rule before and after the invalid one, the
invalid rule changes nothing. -/
theorem invalid_rule_skipped_witness :
    applyRegexRules [ruleA, badRule, ruleA] "ca" =
      applyRegexRules [ruleA, ruleA] "ca" ∧
    applyEditing primsId [ruleA, badRule, ruleA] cfgHF "ca" =
      applyEditing primsId [ruleA, ruleA] cfgHF "ca" :=
  invalid_rule_skipped [ruleA] [ruleA] badRule rfl primsId cfgHF "ca"

/-- C9: a pending message in a terminal state stays there. When the
message stored under `mid` is already approved or rejected, both the
approve and the reject endpoints report not-found and leave the whole
table — status, decision actor, timestamps — unchanged, because their
lookup requires `status = 'pending'`. -/
theorem terminal_pending_immutable (store : List PendingMessage)
    (mid uid : String) (comment : Option String) (now : Int)
    (msg : PendingMessage) (hmem : msg ∈ store) (hid : msg.id = mid)
    (hnd : (store.map (fun m => m.id)).Nodup)
    (hterm : msg.status = "approved" ∨ msg.status = "rejected") :
    approveMessage store mid uid comment now = (ApiResult.notFound, store) ∧
    rejectMessage store mid uid comment now = (ApiResult.notFound, store) := by
  have hfind : store.find?
      (fun m => m.id == mid && m.userId == uid && m.status == "pending")
      = none := by
    rw [List.find?_eq_none]
    intro x hx hpred
    simp only [Bool.and_eq_true, beq_iff_eq] at hpred
    have hxmsg : x = msg :=
      List.inj_on_of_nodup_map hnd hx hmem (by rw [hpred.1.1, hid])
    have hstat := hpred.2
    rw [hxmsg] at hstat
    rcases hterm with h | h <;> rw [h] at hstat <;>
      exact absurd hstat (by decide)
  constructor
  · unfold approveMessage
    rw [hfind]
  · unfold rejectMessage
    rw [hfind]

/-- An already-approved message. -/
def pmApproved : PendingMessage :=
  { id := "m1", userId := "u1", status := "approved",
    approvedBy := some "u1", approvedAt := some 50,
    approvalComment := none, rejectionReason := none, updatedAt := some 50 }

/-- C9 witness: re-approving or rejecting the already-approved `m1`
reports not-found and changes nothing. -/
theorem terminal_pending_immutable_witness :
    approveMessage [pmApproved] "m1" "u1" none 99 =
      (ApiResult.notFound, [pmApproved]) ∧
    rejectMessage [pmApproved] "m1" "u1" none 99 =
      (ApiResult.notFound, [pmApproved]) :=
  terminal_pending_immutable [pmApproved] "m1" "u1" none 99 pmApproved
    (by decide) rfl (by decide) (Or.inl rfl)

/-- C10: the message forwarder's filters fail open. Whenever evaluating
the filter body raises an exception (embedded: the core evaluation
returns `error`), `_apply_message_filters` returns passed, and a message
that has cleared the rate limit is forwarded rather than rejected. -/
theorem filters_fail_open (m : FwdMessage) (f : FwdFilters) (nowSecs : Nat)
    (e : String) (h : applyMessageFiltersCore m f nowSecs = Except.error e) :
    applyMessageFilters m f nowSecs = true ∧
    handleMessageOutcome true m f nowSecs = FwdOutcome.forwarded := by
  have hp : applyMessageFilters m f nowSecs = true := by
    unfold applyMessageFilters
    rw [h]
  refine ⟨hp, ?_⟩
  unfold handleMessageOutcome
  rw [hp]
  simp

/-- Filters whose time restriction holds a malformed start time, raising
`ValueError` inside `strptime`. -/
def ffBadTime : FwdFilters :=
  { keywords := none, mediaTypes := none, mediaOnly := false,
    textOnly := false, minLength := none, maxLength := none,
    allowedSenders := none,
    timeRestrictions := some { startTime := some "notatime",
                               endTime := some "10:00" } }

/-- A plain text message. -/
def fmPlain : FwdMessage :=
  { text := some "hello", media := false, photo := false, video := false,
    document := false, sender := none }

/-- C10 witness: the malformed time string makes the core evaluation
throw, and the message is forwarded anyway. -/
theorem filters_fail_open_witness :
    applyMessageFilters fmPlain ffBadTime 3600 = true ∧
    handleMessageOutcome true fmPlain ffBadTime 3600 =
      FwdOutcome.forwarded :=
  filters_fail_open fmPlain ffBadTime 3600
    "time data notatime does not match format" rfl

/-! ## Concrete pools used as counterexamples -/

/-- Worker A, online, owning session s1. -/
def wA1 : Worker :=
  { id := "A", status := WStatus.online, sessions := ["s1"],
    maxSessions := 10, cpu := 0, mem := 0 }

/-- Worker B, online, idle, with spare capacity. -/
def wB0 : Worker :=
  { id := "B", status := WStatus.online, sessions := [],
    maxSessions := 10, cpu := 0, mem := 0 }

/-- Pool for C1: A owns s1, B is online and nearly empty. -/
def pC1 : Pool := { workers := [wA1, wB0], assignments := [("s1", "A")] }

/-- C1: stopping worker A loses its session instead of reassigning it.
`stop_worker` clears `worker["sessions"]` (line 196) before
`_reassign_worker_sessions` reads that same set (line 779), so the
reassignment loop runs over an empty list: afterwards s1 is assigned to no
worker and sits in no worker's session set, even though B is Online with
spare capacity (and `start_forwarding` would have succeeded). -/
theorem stop_worker_drops_sessions :
    (stopWorker false true (fun _ => "free") "A" pC1).assignments = [] ∧
    ((stopWorker false true (fun _ => "free") "A" pC1).workers.filter
      (fun w => w.sessions.contains "s1")).length = 0 ∧
    ((stopWorker false true (fun _ => "free") "A" pC1).workers.filter
      (fun w => w.status == WStatus.online
        && decide (w.sessions.length < w.maxSessions))).length = 1 := by
  decide

/-- Worker A, online, idle. -/
def wA0 : Worker :=
  { id := "A", status := WStatus.online, sessions := [],
    maxSessions := 10, cpu := 0, mem := 0 }

/-- Pool for C2: two idle online workers. -/
def pC2 : Pool := { workers := [wA0, wB0], assignments := [] }

/-- The pool after assigning s1 twice in a row. -/
def pC2twice : Pool :=
  (assignSession false true "s1" "free"
    (assignSession false true "s1" "free" pC2).2).2

/-- C2 counterexample: `assign_session` never checks whether the session
is already assigned. Assigning s1 on an empty two-worker pool places it on
A; a second `assign_session` call for the same s1 picks the now less
loaded B and adds s1 there without removing it from A, so s1 ends up in
two workers' session sets at once. -/
theorem double_assign_counterexample :
    (pC2twice.workers.filter (fun w => w.sessions.contains "s1")).length
      = 2 := by
  have hf1 : findBestWorker false "free" pC2 = some "A" := by
    norm_num [findBestWorker, onlineWorkers, pC2, wA0, wB0, sortByScore,
      insertByScore, loadScore]
  have h1 : (assignSession false true "s1" "free" pC2).2 =
      rawAssign pC2 "s1" "A" := by
    unfold assignSession
    rw [hf1]
    rfl
  have hstep : rawAssign pC2 "s1" "A" =
      { workers := [{ wA0 with sessions := ["s1"] }, wB0],
        assignments := [("s1", "A")] } := by
    decide
  have hf2 : findBestWorker false "free"
      { workers := [{ wA0 with sessions := ["s1"] }, wB0],
        assignments := [("s1", "A")] } = some "B" := by
    norm_num [findBestWorker, onlineWorkers, wA0, wB0, sortByScore,
      insertByScore, loadScore]
  have h2 : pC2twice = rawAssign
      { workers := [{ wA0 with sessions := ["s1"] }, wB0],
        assignments := [("s1", "A")] } "s1" "B" := by
    unfold pC2twice
    rw [h1, hstep]
    unfold assignSession
    rw [hf2]
    rfl
  rw [h2]
  decide

/-- Worker W, online, at its capacity of 1 session. -/
def wFull : Worker :=
  { id := "W", status := WStatus.online, sessions := ["s0"],
    maxSessions := 1, cpu := 0, mem := 0 }

/-- Pool for C3: the only online worker is at capacity. -/
def pC3 : Pool := { workers := [wFull], assignments := [("s0", "W")] }

/-- C3 counterexample: `_find_best_worker` only penalizes full workers in
the load score, it never excludes them, and `assign_session` performs no
capacity check. With every online worker at capacity the assign still
succeeds and pushes W to 2 sessions against `max_sessions = 1`. -/
theorem capacity_exceeded_counterexample :
    (assignSession false true "s1" "free" pC3).1 = some "W" ∧
    (assignSession false true "s1" "free" pC3).2.workers =
      [{ id := "W", status := WStatus.online, sessions := ["s0", "s1"],
         maxSessions := 1, cpu := 0, mem := 0 }] ∧
    wFull.maxSessions = 1 := by
  decide

/-- Three online workers with strictly increasing load scores. -/
def wLow : Worker :=
  { id := "w1", status := WStatus.online, sessions := [],
    maxSessions := 10, cpu := 0, mem := 0 }

def wMid : Worker :=
  { id := "w2", status := WStatus.online, sessions := ["x1"],
    maxSessions := 10, cpu := 0, mem := 0 }

def wHigh : Worker :=
  { id := "w3", status := WStatus.online, sessions := ["y1", "y2"],
    maxSessions := 10, cpu := 0, mem := 0 }

/-- Pool for C4. -/
def pC4 : Pool := { workers := [wLow, wMid, wHigh], assignments := [] }

/-- C4 counterexample: only `user_type == "premium"` is special-cased
(line 403); an `"admin"` session falls through to the free-tier branch, so
under memory pressure it is routed to the median-rank worker w2 although
the online worker w1 has a strictly lower load score. -/
theorem admin_tier_counterexample :
    findBestWorker true "admin" pC4 = some "w2" ∧
    wLow ∈ onlineWorkers pC4 ∧
    loadScore wLow < loadScore wMid ∧
    wLow.id ≠ "w2" := by
  refine ⟨?_, by decide, ?_, by decide⟩
  · norm_num [findBestWorker, onlineWorkers, pC4, wLow, wMid, wHigh,
      sortByScore, insertByScore, loadScore]
    exact fun h => absurd h (by decide)
  · norm_num [loadScore, wLow, wMid]

/-- The URL oracle for the C5 counterexample: the fixed pattern
`http[s]?://...` matches any text containing "http://" followed by a
word character, as "http://ab" is. -/
def urlOracleCx : String → Bool := fun t => strContainsSub t "http://"

/-- A forwarded message whose text contains a URL. -/
def mCx : FMessage :=
  { text := "http://ab", messageType := "text", fwdFrom := true,
    senderId := none }

/-- A configuration blocking both URLs and forwarded messages. -/
def fCx : FilterConfig :=
  { allowedMessageTypes := [], blockUrls := true, blockForwards := true,
    minMessageLength := 0, maxMessageLength := 4096,
    includeKeywords := [], excludeKeywords := [], caseSensitive := false,
    keywordMatchMode := "any", allowedUserIds := [], blockedUserIds := [] }

/-- C5 counterexample: the source checks the URL filter (line 145) BEFORE
the forwarded filter (line 149), so a forwarded message containing a URL
is rejected with the URL reason, not the forwarded reason the claim's
order (type, forwarded, URL, ...) would require. There is also no time
window stage in `_apply_filters` at all. -/
theorem filter_order_counterexample :
    applyFilters urlOracleCx mCx fCx = some FilterReason.containsUrls ∧
    fCx.blockForwards = true ∧ mCx.fwdFrom = true ∧
    FilterReason.containsUrls ≠ FilterReason.forwardedBlocked := by
  refine ⟨?_, by decide, by decide, by decide⟩
  decide

/-- The sender stages match the source's allow-then-block conditional. -/
theorem sender_stages_eq (m : FMessage) (f : FilterConfig) :
    (match m.senderId with
     | some sv =>
         if sv != 0 then
           if !f.allowedUserIds.isEmpty
               && !(f.allowedUserIds.contains (toString sv)) then
             some FilterReason.senderNotAllowed
           else if !f.blockedUserIds.isEmpty
               && f.blockedUserIds.contains (toString sv) then
             some FilterReason.senderBlocked
           else none
         else none
     | none => none)
    = firstViolation [stSenderAllowed m f, stSenderBlocked m f] := by
  unfold stSenderAllowed stSenderBlocked
  cases hs : m.senderId with
  | none => simp [firstViolation]
  | some sv =>
      by_cases h0 : (sv != 0) = true
      · by_cases hA : (!f.allowedUserIds.isEmpty
            && !(f.allowedUserIds.contains (toString sv))) = true
        · simp only [if_pos h0, if_pos hA, firstViolation]
        · by_cases hB : (!f.blockedUserIds.isEmpty
              && f.blockedUserIds.contains (toString sv)) = true
          · simp only [if_pos h0, if_neg hA, if_pos hB, firstViolation]
          · simp only [if_pos h0, if_neg hA, if_neg hB, firstViolation]
      · simp only [if_neg h0, firstViolation]

/-- C5 (amended order): `_apply_filters` is exactly the short-circuiting
chain message-type, block-URL, block-forwarded, min length, max length,
include keywords (ANY/ALL), exclude keywords, sender allow list, sender
block list — evaluated in this fixed order with the first violated rule's
reason reported. (The source has no time-window stage, and checks the URL
block before the forwarded block.) -/
theorem applyFilters_eq_chain (o : String → Bool) (m : FMessage)
    (f : FilterConfig) :
    applyFilters o m f = firstViolation (filterChainSpec o m f) := by
  by_cases h1 : (!f.allowedMessageTypes.isEmpty
      && !(f.allowedMessageTypes.contains m.messageType)) = true
  · have hL : applyFilters o m f =
        some (FilterReason.typeNotAllowed m.messageType) := by
      unfold applyFilters
      simp only [if_pos h1]
    have hR : firstViolation (filterChainSpec o m f) =
        some (FilterReason.typeNotAllowed m.messageType) := by
      unfold filterChainSpec stMessageType
      simp only [if_pos h1, firstViolation]
    rw [hL, hR]
  · by_cases h2 : (f.blockUrls && o m.text) = true
    · have hL : applyFilters o m f = some FilterReason.containsUrls := by
        unfold applyFilters
        simp only [if_neg h1, if_pos h2]
      have hR : firstViolation (filterChainSpec o m f) =
          some FilterReason.containsUrls := by
        unfold filterChainSpec stMessageType stBlockUrls
        simp only [if_neg h1, if_pos h2, firstViolation]
      rw [hL, hR]
    · by_cases h3 : (f.blockForwards && m.fwdFrom) = true
      · have hL : applyFilters o m f =
            some FilterReason.forwardedBlocked := by
          unfold applyFilters
          simp only [if_neg h1, if_neg h2, if_pos h3]
        have hR : firstViolation (filterChainSpec o m f) =
            some FilterReason.forwardedBlocked := by
          unfold filterChainSpec stMessageType stBlockUrls stBlockForwards
          simp only [if_neg h1, if_neg h2, if_pos h3, firstViolation]
        rw [hL, hR]
      · by_cases h4 : m.text.length < f.minMessageLength
        · have hL : applyFilters o m f =
              some (FilterReason.tooShort f.minMessageLength) := by
            unfold applyFilters
            simp only [if_neg h1, if_neg h2, if_neg h3, if_pos h4]
          have hR : firstViolation (filterChainSpec o m f) =
              some (FilterReason.tooShort f.minMessageLength) := by
            unfold filterChainSpec stMessageType stBlockUrls stBlockForwards
              stMinLength
            simp only [if_neg h1, if_neg h2, if_neg h3, if_pos h4,
              firstViolation]
          rw [hL, hR]
        · by_cases h5 : m.text.length > f.maxMessageLength
          · have hL : applyFilters o m f =
                some (FilterReason.tooLong f.maxMessageLength) := by
              unfold applyFilters
              simp only [if_neg h1, if_neg h2, if_neg h3, if_neg h4,
                if_pos h5]
            have hR : firstViolation (filterChainSpec o m f) =
                some (FilterReason.tooLong f.maxMessageLength) := by
              unfold filterChainSpec stMessageType stBlockUrls
                stBlockForwards stMinLength stMaxLength
              simp only [if_neg h1, if_neg h2, if_neg h3, if_neg h4,
                if_pos h5, firstViolation]
            rw [hL, hR]
          · have hL : applyFilters o m f =
                (match stIncludeKeywords m f with
                 | some r => some r
                 | none =>
                   match stExcludeKeywords m f with
                   | some r => some r
                   | none =>
                     match m.senderId with
                     | some sv =>
                         if sv != 0 then
                           if !f.allowedUserIds.isEmpty
                               && !(f.allowedUserIds.contains (toString sv)) then
                             some FilterReason.senderNotAllowed
                           else if !f.blockedUserIds.isEmpty
                               && f.blockedUserIds.contains (toString sv) then
                             some FilterReason.senderBlocked
                           else none
                         else none
                     | none => none) := by
              unfold applyFilters
              simp only [if_neg h1, if_neg h2, if_neg h3, if_neg h4,
                if_neg h5]
              rfl
            have hR : firstViolation (filterChainSpec o m f) =
                firstViolation [stIncludeKeywords m f, stExcludeKeywords m f,
                  stSenderAllowed m f, stSenderBlocked m f] := by
              unfold filterChainSpec stMessageType stBlockUrls
                stBlockForwards stMinLength stMaxLength
              simp only [if_neg h1, if_neg h2, if_neg h3, if_neg h4,
                if_neg h5, firstViolation]
            rw [hL, hR]
            cases hI : stIncludeKeywords m f with
            | some r => simp [firstViolation]
            | none =>
                cases hE : stExcludeKeywords m f with
                | some r => simp [firstViolation]
                | none =>
                    simp only [firstViolation]
                    exact sender_stages_eq m f

/-! ## Pool invariant: every session sits in at most one worker set -/

/-- The orchestrator's consistency invariant: worker ids are distinct and
every session in a worker's set is recorded as assigned to that worker. -/
def InvPool (p : Pool) : Prop :=
  (p.workers.map (fun w => w.id)).Nodup ∧
  ∀ w ∈ p.workers, ∀ sid ∈ w.sessions, assignLookup p sid = some w.id

/-- No session is owned by two distinct workers. -/
def atMostOneOwner (p : Pool) : Prop :=
  ∀ s w1 w2, w1 ∈ p.workers → w2 ∈ p.workers →
    s ∈ w1.sessions → s ∈ w2.sessions → w1 = w2

theorem invPool_atMostOne {p : Pool} (h : InvPool p) : atMostOneOwner p := by
  intro s w1 w2 h1 h2 hs1 hs2
  have e1 := h.2 w1 h1 s hs1
  have e2 := h.2 w2 h2 s hs2
  have hid : w1.id = w2.id := by
    have := e1.symm.trans e2
    exact Option.some.inj this
  exact List.inj_on_of_nodup_map h.1 h1 h2 hid

theorem mem_sessAdd {l : List String} {s x : String} :
    x ∈ sessAdd l s ↔ x ∈ l ∨ x = s := by
  unfold sessAdd
  by_cases h : l.contains s = true
  · rw [if_pos h]
    have hs : s ∈ l := by simpa using h
    constructor
    · exact Or.inl
    · rintro (hx | rfl)
      · exact hx
      · exact hs
  · rw [if_neg h]
    simp [List.mem_append]

theorem alookup_append_self {l : List (String × String)} {sid wid : String}
    (h : alookup l sid = none) :
    alookup (l ++ [(sid, wid)]) sid = some wid := by
  induction l with
  | nil => simp [alookup]
  | cons kv t ih =>
      simp only [alookup] at h
      by_cases hkv : (kv.1 == sid) = true
      · rw [if_pos hkv] at h
        exact absurd h (by simp)
      · rw [if_neg hkv] at h
        rw [List.cons_append]
        simp only [alookup]
        rw [if_neg hkv]
        exact ih h

theorem alookup_append_ne {l : List (String × String)} {sid wid x : String}
    (h : x ≠ sid) : alookup (l ++ [(sid, wid)]) x = alookup l x := by
  induction l with
  | nil =>
      have hne : ((sid, wid).1 == x) = false := by
        simp only [beq_eq_false_iff_ne, ne_eq]
        exact fun hc => h hc.symm
      simp [alookup, hne]
  | cons kv t ih =>
      rw [List.cons_append]
      simp only [alookup]
      by_cases hkv : (kv.1 == x) = true
      · rw [if_pos hkv, if_pos hkv]
      · rw [if_neg hkv, if_neg hkv]
        exact ih

theorem alookup_filterKey_self {l : List (String × String)} {sid : String} :
    alookup (l.filter (fun kv => !(kv.1 == sid))) sid = none := by
  induction l with
  | nil => simp [alookup]
  | cons kv t ih =>
      by_cases hkv : (kv.1 == sid) = true
      · rw [List.filter_cons_of_neg (by simp [hkv])]
        exact ih
      · rw [List.filter_cons_of_pos (by simp [hkv])]
        simp only [alookup]
        rw [if_neg hkv]
        exact ih

theorem alookup_filterKey_ne {l : List (String × String)} {sid x : String}
    (h : x ≠ sid) :
    alookup (l.filter (fun kv => !(kv.1 == sid))) x = alookup l x := by
  induction l with
  | nil => simp [alookup]
  | cons kv t ih =>
      by_cases hsid : (kv.1 == sid) = true
      · have hx : (kv.1 == x) = false := by
          have hk : kv.1 = sid := by simpa using hsid
          rw [hk]
          simp only [beq_eq_false_iff_ne, ne_eq]
          exact fun hc => h hc.symm
        rw [List.filter_cons_of_neg (by simp [hsid])]
        have hrhs : alookup (kv :: t) x = alookup t x := by
          simp only [alookup]
          rw [if_neg (by simp [hx])]
        rw [hrhs]
        exact ih
      · rw [List.filter_cons_of_pos (by simp [hsid])]
        simp only [alookup]
        by_cases hx : (kv.1 == x) = true
        · rw [if_pos hx, if_pos hx]
        · rw [if_neg hx, if_neg hx]
          exact ih


theorem mem_sessDiscard {l : List String} {s x : String} :
    x ∈ sessDiscard l s ↔ x ∈ l ∧ x ≠ s := by
  unfold sessDiscard
  simp [List.mem_filter]

theorem alookup_none_any_false {l : List (String × String)} {sid : String}
    (h : alookup l sid = none) : l.any (fun kv => kv.1 == sid) = false := by
  induction l with
  | nil => rfl
  | cons kv t ih =>
      simp only [alookup] at h
      by_cases hkv : (kv.1 == sid) = true
      · rw [if_pos hkv] at h
        exact absurd h (by simp)
      · rw [if_neg hkv] at h
        simp only [List.any_cons, ih h, Bool.or_false]
        simpa using hkv

/-- With the session unassigned, the dict store appends. -/
theorem assignSet_of_unassigned {p : Pool} {sid wid : String}
    (h : assignLookup p sid = none) :
    assignSet p sid wid =
      { p with assignments := p.assignments ++ [(sid, wid)] } := by
  unfold assignSet
  rw [alookup_none_any_false h]
  simp

theorem updateWorker_workers (p : Pool) (wid : String) (f : Worker → Worker) :
    (updateWorker p wid f).workers =
      p.workers.map (fun w => if w.id == wid then f w else w) := rfl

theorem updateWorker_assignments (p : Pool) (wid : String)
    (f : Worker → Worker) :
    (updateWorker p wid f).assignments = p.assignments := rfl

theorem updateWorker_ids {p : Pool} {wid : String} {f : Worker → Worker}
    (hf : ∀ w, (f w).id = w.id) :
    (updateWorker p wid f).workers.map (fun w => w.id) =
      p.workers.map (fun w => w.id) := by
  rw [updateWorker_workers, List.map_map]
  apply List.map_congr_left
  intro w _
  by_cases h : (w.id == wid) = true
  · simp only [Function.comp, h, if_pos]
    exact hf w
  · simp only [Function.comp, h, if_neg]
    rfl

theorem wlookup_some {l : List Worker} {wid : String} {w : Worker}
    (h : wlookup l wid = some w) : w ∈ l ∧ w.id = wid := by
  induction l with
  | nil => exact absurd h (by simp [wlookup])
  | cons v t ih =>
      simp only [wlookup] at h
      by_cases hv : (v.id == wid) = true
      · rw [if_pos hv] at h
        have : v = w := Option.some.inj h
        subst this
        exact ⟨List.mem_cons_self _ _, by simpa using hv⟩
      · rw [if_neg hv] at h
        obtain ⟨hm, hi⟩ := ih h
        exact ⟨List.mem_cons_of_mem _ hm, hi⟩

theorem wlookup_map_self {l : List Worker} {wid : String} {w : Worker}
    {f : Worker → Worker} (hf : ∀ v, (f v).id = v.id)
    (h : wlookup l wid = some w) :
    wlookup (l.map (fun v => if v.id == wid then f v else v)) wid
      = some (f w) := by
  induction l with
  | nil => exact absurd h (by simp [wlookup])
  | cons v t ih =>
      simp only [wlookup, List.map_cons] at h ⊢
      by_cases hv : (v.id == wid) = true
      · rw [if_pos hv] at h ⊢
        have hfv : ((f v).id == wid) = true := by
          rw [hf v]
          exact hv
        rw [if_pos hfv, ← Option.some.inj h]
      · rw [if_neg hv] at h ⊢
        rw [if_neg hv]
        exact ih h

/-- Removing a batch of keys from the assignment dict. -/
theorem alookup_foldl_remove (L : List String) (p : Pool) (x : String) :
    assignLookup (L.foldl (fun acc s => assignRemove acc s) p) x =
      if x ∈ L then none else assignLookup p x := by
  induction L generalizing p with
  | nil => simp
  | cons r t ih =>
      rw [List.foldl_cons, ih]
      by_cases hx : x ∈ t
      · rw [if_pos hx, if_pos (List.mem_cons_of_mem _ hx)]
      · rw [if_neg hx]
        by_cases hxr : x = r
        · subst hxr
          rw [if_pos (List.mem_cons_self _ _)]
          unfold assignLookup assignRemove
          exact alookup_filterKey_self
        · rw [if_neg (by simp [hxr, hx])]
          unfold assignLookup assignRemove
          exact alookup_filterKey_ne hxr

theorem foldl_remove_workers (L : List String) (p : Pool) :
    (L.foldl (fun acc s => assignRemove acc s) p).workers = p.workers := by
  induction L generalizing p with
  | nil => rfl
  | cons r t ih => rw [List.foldl_cons, ih]; rfl

theorem invPool_rawAssign {p : Pool} {sid wid : String} (hInv : InvPool p)
    (h : assignLookup p sid = none) : InvPool (rawAssign p sid wid) := by
  have hq : rawAssign p sid wid =
      { workers := p.workers.map (fun w =>
          if w.id == wid then { w with sessions := sessAdd w.sessions sid }
          else w),
        assignments := p.assignments ++ [(sid, wid)] } := by
    unfold rawAssign
    rw [assignSet_of_unassigned h]
    rfl
  rw [hq]
  constructor
  · have hids : (fun w : Worker =>
        (if w.id == wid then { w with sessions := sessAdd w.sessions sid }
         else w).id) = fun w : Worker => w.id := by
      funext w
      by_cases hw : (w.id == wid) = true
      · rw [if_pos hw]
      · rw [if_neg hw]
    show (List.map _ (p.workers.map _)).Nodup
    rw [List.map_map]
    have : ((fun w : Worker => w.id) ∘ fun w : Worker =>
        if w.id == wid then { w with sessions := sessAdd w.sessions sid }
        else w) = fun w : Worker => w.id := by
      funext w
      by_cases hw : (w.id == wid) = true
      · simp only [Function.comp, if_pos hw]
      · simp only [Function.comp, if_neg hw]
    rw [this]
    exact hInv.1
  · intro w' hw' sid' hsid'
    obtain ⟨w, hw, rfl⟩ := List.mem_map.mp hw'
    show alookup (p.assignments ++ [(sid, wid)]) sid' = _
    by_cases hid : (w.id == wid) = true
    · rw [if_pos hid] at hsid' ⊢
      rcases mem_sessAdd.mp hsid' with hs | rfl
      · have hold := hInv.2 w hw sid' hs
        have hne : sid' ≠ sid := by
          intro he
          rw [he, h] at hold
          exact absurd hold (by simp)
        rw [alookup_append_ne hne]
        exact hold
      · rw [alookup_append_self h]
        have : w.id = wid := by simpa using hid
        simp [this]
    · rw [if_neg hid] at hsid' ⊢
      have hold := hInv.2 w hw sid' hsid'
      have hne : sid' ≠ sid := by
        intro he
        rw [he, h] at hold
        exact absurd hold (by simp)
      rw [alookup_append_ne hne]
      exact hold

theorem invPool_unassign {p : Pool} {sid : String} (hInv : InvPool p) :
    InvPool (unassignSession sid p) := by
  cases hl : assignLookup p sid with
  | none =>
      unfold unassignSession
      rw [hl]
      exact hInv
  | some wid =>
      have hq : unassignSession sid p =
          { workers := p.workers.map (fun w =>
              if w.id == wid then
                { w with sessions := sessDiscard w.sessions sid }
              else w),
            assignments :=
              p.assignments.filter (fun kv => !(kv.1 == sid)) } := by
        unfold unassignSession
        rw [hl]
        rfl
      rw [hq]
      constructor
      · show (List.map _ (p.workers.map _)).Nodup
        rw [List.map_map]
        have : ((fun w : Worker => w.id) ∘ fun w : Worker =>
            if w.id == wid then
              { w with sessions := sessDiscard w.sessions sid }
            else w) = fun w : Worker => w.id := by
          funext w
          by_cases hw : (w.id == wid) = true
          · simp only [Function.comp, if_pos hw]
          · simp only [Function.comp, if_neg hw]
        rw [this]
        exact hInv.1
      · intro w' hw' sid' hsid'
        obtain ⟨w, hw, rfl⟩ := List.mem_map.mp hw'
        show alookup (p.assignments.filter (fun kv => !(kv.1 == sid))) sid'
          = _
        by_cases hid : (w.id == wid) = true
        · rw [if_pos hid] at hsid' ⊢
          obtain ⟨hs, hne⟩ := mem_sessDiscard.mp hsid'
          rw [alookup_filterKey_ne hne]
          exact hInv.2 w hw sid' hs
        · rw [if_neg hid] at hsid' ⊢
          have hold := hInv.2 w hw sid' hsid'
          have hne : sid' ≠ sid := by
            intro he
            rw [he, hl] at hold
            have : wid = w.id := Option.some.inj hold
            rw [← this] at hid
            simp at hid
          rw [alookup_filterKey_ne hne]
          exact hold

theorem invPool_assignSession (mc fwdOk : Bool) (sid ut : String) {p : Pool}
    (hInv : InvPool p) (h : assignLookup p sid = none) :
    InvPool (assignSession mc fwdOk sid ut p).2 := by
  unfold assignSession
  cases hf : findBestWorker mc ut p with
  | none => exact hInv
  | some wid =>
      cases fwdOk with
      | false => exact hInv
      | true => exact invPool_rawAssign hInv h

theorem unassign_lookup_none (sid : String) (p : Pool) :
    assignLookup (unassignSession sid p) sid = none := by
  cases hl : assignLookup p sid with
  | none =>
      unfold unassignSession
      rw [hl]
      exact hl
  | some wid =>
      unfold unassignSession
      rw [hl]
      show alookup (List.filter _ _) sid = none
      exact alookup_filterKey_self

theorem invPool_stopClear {p : Pool} (wid : String) (hInv : InvPool p) :
    InvPool (stopWorkerClear wid p) := by
  cases hw : lookupWorker p wid with
  | none =>
      unfold stopWorkerClear
      rw [hw]
      exact hInv
  | some w =>
      obtain ⟨hwmem, hwid⟩ := wlookup_some (l := p.workers) hw
      have hq : stopWorkerClear wid p =
          { workers := p.workers.map (fun v =>
              if v.id == wid then
                { v with status := WStatus.offline, sessions := [],
                         cpu := 0, mem := 0 }
              else v),
            assignments := (w.sessions.foldl
              (fun acc sid => assignRemove acc sid) p).assignments } := by
        unfold stopWorkerClear
        rw [hw]
        dsimp only
        unfold updateWorker
        rw [foldl_remove_workers]
      rw [hq]
      constructor
      · show (List.map _ (p.workers.map _)).Nodup
        rw [List.map_map]
        have : ((fun v : Worker => v.id) ∘ fun v : Worker =>
            if v.id == wid then
              { v with status := WStatus.offline, sessions := [],
                       cpu := 0, mem := 0 }
            else v) = fun v : Worker => v.id := by
          funext v
          by_cases hv : (v.id == wid) = true
          · simp only [Function.comp, if_pos hv]
          · simp only [Function.comp, if_neg hv]
        rw [this]
        exact hInv.1
      · intro w' hw' sid' hsid'
        obtain ⟨v, hv, rfl⟩ := List.mem_map.mp hw'
        by_cases hid : (v.id == wid) = true
        · rw [if_pos hid] at hsid'
          exact absurd hsid' (by simp)
        · rw [if_neg hid] at hsid' ⊢
          have hold := hInv.2 v hv sid' hsid'
          show assignLookup (w.sessions.foldl
            (fun acc sid => assignRemove acc sid) p) sid' = some v.id
          rw [alookup_foldl_remove]
          have hnot : sid' ∉ w.sessions := by
            intro hc
            have := hInv.2 w hwmem sid' hc
            rw [hold] at this
            have hvw : v.id = w.id := Option.some.inj this
            rw [hvw, hwid] at hid
            simp at hid
          rw [if_neg hnot]
          exact hold

theorem stopWorker_eq_clear (mc fwdOk : Bool) (tierOf : String → String)
    (wid : String) (p : Pool) :
    stopWorker mc fwdOk tierOf wid p = stopWorkerClear wid p := by
  cases hw : lookupWorker p wid with
  | none =>
      unfold stopWorker stopWorkerClear
      rw [hw]
  | some w =>
      unfold stopWorker
      rw [hw]
      dsimp only
      have hlook : lookupWorker (stopWorkerClear wid p) wid =
          some { w with status := WStatus.offline, sessions := [],
                        cpu := 0, mem := 0 } := by
        unfold stopWorkerClear
        rw [hw]
        show wlookup (List.map _ _) wid = _
        rw [foldl_remove_workers]
        exact wlookup_map_self (fun v => rfl) hw
      unfold reassignWorkerSessions
      rw [hlook]
      rfl

theorem invPool_rebalanceMove (target : String) {p : Pool} (owid : String)
    (hInv : InvPool p) : InvPool (rebalanceMove target p owid) := by
  unfold rebalanceMove
  cases hw : lookupWorker p owid with
  | none => exact hInv
  | some ow =>
      dsimp only
      cases hs : ow.sessions with
      | nil => exact hInv
      | cons sid rest =>
          exact invPool_rawAssign (invPool_unassign hInv)
            (unassign_lookup_none sid p)

theorem invPool_foldl_move (target : String) (L : List String) {p : Pool}
    (hInv : InvPool p) : InvPool (L.foldl (rebalanceMove target) p) := by
  induction L generalizing p with
  | nil => exact hInv
  | cons o t ih =>
      rw [List.foldl_cons]
      exact ih (invPool_rebalanceMove target o hInv)

theorem invPool_rebalance {p : Pool} (hInv : InvPool p) :
    InvPool (rebalanceSessions p) := by
  simp only [rebalanceSessions]
  split
  · exact hInv
  · split
    · exact hInv
    · exact invPool_foldl_move _ _ hInv

/-! ## The operations reachable from the orchestrator, as a step relation.
The `assignNew` step carries the amended precondition: `assign_session` is
only invoked on a session with no current assignment, which is how every
internal caller (`_reassign_worker_sessions`, rebalancing, orphan cleanup)
uses it. -/

inductive PoolStep (mc : Bool) (tierOf : String → String) : Pool → Pool → Prop
  | assignNew (sid ut : String) (fwdOk : Bool) (p : Pool)
      (h : assignLookup p sid = none) :
      PoolStep mc tierOf p (assignSession mc fwdOk sid ut p).2
  | unassign (sid : String) (p : Pool) :
      PoolStep mc tierOf p (unassignSession sid p)
  | stop (fwdOk : Bool) (wid : String) (p : Pool) :
      PoolStep mc tierOf p (stopWorker mc fwdOk tierOf wid p)
  | rebalance (p : Pool) :
      PoolStep mc tierOf p (rebalanceSessions p)

theorem invPool_step {mc : Bool} {tierOf : String → String} {p q : Pool}
    (hInv : InvPool p) (hstep : PoolStep mc tierOf p q) : InvPool q := by
  cases hstep with
  | assignNew sid ut fwdOk p h => exact invPool_assignSession mc fwdOk sid ut hInv h
  | unassign sid p => exact invPool_unassign hInv
  | stop fwdOk wid p =>
      rw [stopWorker_eq_clear]
      exact invPool_stopClear wid hInv
  | rebalance p => exact invPool_rebalance hInv

/-- C2 (amended): starting from any consistent pool state, along any
sequence of assign (of currently-unassigned sessions, as all the
orchestrator's internal flows do), unassign, stop-worker and rebalance
operations, every session id sits in at most one worker's session set.
The amendment is forced by `double_assign_counterexample`: a direct
`assign_session` on an already-assigned session duplicates it. -/
theorem no_double_assignment (mc : Bool) (tierOf : String → String)
    (p q : Pool) (hInv : InvPool p)
    (hreach : Relation.ReflTransGen (PoolStep mc tierOf) p q) :
    atMostOneOwner q := by
  have hq : InvPool q := by
    induction hreach with
    | refl => exact hInv
    | tail hsteps hstep ih => exact invPool_step ih hstep
  exact invPool_atMostOne hq

/-- C2 witness: a concrete two-step run (assign s1, then stop worker A)
from the two-worker pool keeps every session singly owned. -/
theorem no_double_assignment_witness :
    atMostOneOwner (stopWorker false true (fun _ => "free") "A"
      (assignSession false true "s1" "free" pC2).2) :=
  no_double_assignment false (fun _ => "free") pC2 _
    (by unfold InvPool; decide)
    (Relation.ReflTransGen.tail
      (Relation.ReflTransGen.single
        (PoolStep.assignNew "s1" "free" true pC2 (by decide)))
      (PoolStep.stop true "A" _))

/-! ## Properties of the load-score ranking -/

theorem mem_insertByScore {x w : Worker} {l : List Worker} :
    x ∈ insertByScore w l ↔ x = w ∨ x ∈ l := by
  induction l with
  | nil => simp [insertByScore]
  | cons v vs ih =>
      unfold insertByScore
      by_cases h : loadScore w ≤ loadScore v
      · rw [if_pos h]
        simp [List.mem_cons]
      · rw [if_neg h]
        simp [List.mem_cons, ih]
        tauto

theorem mem_sortByScore {x : Worker} {l : List Worker} :
    x ∈ sortByScore l ↔ x ∈ l := by
  induction l with
  | nil => simp [sortByScore]
  | cons w ws ih =>
      unfold sortByScore
      rw [mem_insertByScore]
      simp [List.mem_cons, ih]

theorem length_insertByScore (w : Worker) (l : List Worker) :
    (insertByScore w l).length = l.length + 1 := by
  induction l with
  | nil => rfl
  | cons v vs ih =>
      unfold insertByScore
      by_cases h : loadScore w ≤ loadScore v
      · rw [if_pos h]
        rfl
      · rw [if_neg h]
        simp [ih]

theorem length_sortByScore (l : List Worker) :
    (sortByScore l).length = l.length := by
  induction l with
  | nil => rfl
  | cons w ws ih =>
      unfold sortByScore
      rw [length_insertByScore, ih]
      rfl

theorem pairwise_insertByScore {w : Worker} {l : List Worker}
    (h : l.Pairwise (fun a b => loadScore a ≤ loadScore b)) :
    (insertByScore w l).Pairwise (fun a b => loadScore a ≤ loadScore b) := by
  induction l with
  | nil => simp [insertByScore]
  | cons v vs ih =>
      rw [List.pairwise_cons] at h
      obtain ⟨hv, hvs⟩ := h
      unfold insertByScore
      by_cases hle : loadScore w ≤ loadScore v
      · rw [if_pos hle]
        refine List.Pairwise.cons ?_ (List.Pairwise.cons hv hvs)
        intro b hb
        rcases List.mem_cons.mp hb with rfl | hbm
        · exact hle
        · exact le_trans hle (hv b hbm)
      · rw [if_neg hle]
        refine List.Pairwise.cons ?_ (ih hvs)
        intro b hb
        rcases mem_insertByScore.mp hb with rfl | hbm
        · exact le_of_not_le hle
        · exact hv b hbm

theorem pairwise_sortByScore (l : List Worker) :
    (sortByScore l).Pairwise (fun a b => loadScore a ≤ loadScore b) := by
  induction l with
  | nil => simp [sortByScore]
  | cons w ws ih =>
      unfold sortByScore
      exact pairwise_insertByScore ih

/-- The head of the ranking has the minimal load score. -/
theorem sorted_head_min {l : List Worker} {w : Worker} {ws : List Worker}
    (h : sortByScore l = w :: ws) :
    ∀ v ∈ l, loadScore w ≤ loadScore v := by
  intro v hv
  have hv2 : v ∈ w :: ws := by
    rw [← h]
    exact mem_sortByScore.mpr hv
  rcases List.mem_cons.mp hv2 with rfl | hm
  · exact le_refl _
  · have hp := pairwise_sortByScore l
    rw [h, List.pairwise_cons] at hp
    exact hp.1 v hm

theorem sortByScore_ne_nil {l : List Worker} (h : l ≠ []) :
    ∃ w ws, sortByScore l = w :: ws := by
  cases hs : sortByScore l with
  | nil =>
      exfalso
      have := length_sortByScore l
      rw [hs] at this
      cases l with
      | nil => exact h rfl
      | cons a b => simp at this
  | cons a b => exact ⟨a, b, rfl⟩

/-- `_find_best_worker` returns `None` exactly when no worker is Online. -/
theorem findBestWorker_none_iff (mc : Bool) (ut : String) (p : Pool) :
    findBestWorker mc ut p = none ↔ onlineWorkers p = [] := by
  unfold findBestWorker
  by_cases hemp : (onlineWorkers p).isEmpty = true
  · rw [if_pos hemp]
    simp only [List.isEmpty_iff] at hemp
    simp [hemp]
  · rw [if_neg hemp]
    have hne : onlineWorkers p ≠ [] := by
      intro hc
      rw [hc] at hemp
      exact hemp rfl
    obtain ⟨w, ws, hsort⟩ := sortByScore_ne_nil hne
    constructor
    · intro hl
      exfalso
      by_cases hprem : (ut == "premium") = true
      · rw [if_pos hprem, hsort] at hl
        simp at hl
      · rw [if_neg hprem] at hl
        by_cases hmc : mc = true
        · rw [if_pos hmc] at hl
          have hidx : min ((sortByScore (onlineWorkers p)).length - 1)
              ((sortByScore (onlineWorkers p)).length / 2)
              < (sortByScore (onlineWorkers p)).length := by
            rw [hsort]
            simp only [List.length_cons]
            omega
          have hnone := Option.map_eq_none'.mp hl
          rw [List.get?_eq_none] at hnone
          omega
        · rw [if_neg hmc, hsort] at hl
          simp at hl
    · intro hc
      exact absurd hc hne

/-- Whatever `_find_best_worker` returns is an Online worker's id. -/
theorem findBestWorker_some_online {mc : Bool} {ut : String} {p : Pool}
    {wid : String} (h : findBestWorker mc ut p = some wid) :
    ∃ w, w ∈ onlineWorkers p ∧ w.id = wid := by
  unfold findBestWorker at h
  by_cases hemp : (onlineWorkers p).isEmpty = true
  · rw [if_pos hemp] at h
    exact absurd h (by simp)
  · rw [if_neg hemp] at h
    have hmem : ∀ v : Worker, v ∈ sortByScore (onlineWorkers p) →
        v ∈ onlineWorkers p := fun v hv => mem_sortByScore.mp hv
    have hne : onlineWorkers p ≠ [] := by
      intro hc
      rw [hc] at hemp
      exact hemp rfl
    obtain ⟨w, ws, hsort⟩ := sortByScore_ne_nil hne
    by_cases hprem : (ut == "premium") = true
    · rw [if_pos hprem, hsort] at h
      simp only [List.head?_cons, Option.map_some'] at h
      exact ⟨w, hmem w (by rw [hsort]; exact List.mem_cons_self w ws),
        Option.some.inj h⟩
    · rw [if_neg hprem] at h
      by_cases hmc : mc = true
      · rw [if_pos hmc] at h
        cases hg : (sortByScore (onlineWorkers p)).get?
            (min ((sortByScore (onlineWorkers p)).length - 1)
              ((sortByScore (onlineWorkers p)).length / 2)) with
        | none =>
            rw [hg] at h
            exact absurd h (by simp)
        | some v =>
            rw [hg] at h
            simp only [Option.map_some'] at h
            have hv : v ∈ sortByScore (onlineWorkers p) :=
              List.get?_mem hg
            exact ⟨v, hmem v hv, Option.some.inj h⟩
      · rw [if_neg hmc, hsort] at h
        simp only [List.head?_cons, Option.map_some'] at h
        exact ⟨w, hmem w (by rw [hsort]; exact List.mem_cons_self w ws),
          Option.some.inj h⟩

/-- C3 (amended): `assign_session` performs no capacity check at all. With
forwarding succeeding, it returns no worker exactly when no Online worker
exists — a pool whose Online workers are all at `max_sessions` still gets
the assignment (capacity only raises the load score), as
`capacity_exceeded_counterexample` shows — and any returned id belongs to
an Online worker. -/
theorem assign_no_capacity_check (mc : Bool) (sid ut : String) (p : Pool) :
    ((assignSession mc true sid ut p).1 = none ↔ onlineWorkers p = []) ∧
    (∀ wid, (assignSession mc true sid ut p).1 = some wid →
      ∃ w, w ∈ p.workers ∧ w.id = wid ∧ w.status = WStatus.online) := by
  constructor
  · unfold assignSession
    cases hf : findBestWorker mc ut p with
    | none =>
        have := (findBestWorker_none_iff mc ut p).mp hf
        simp [this]
    | some wid =>
        constructor
        · intro hc
          exact absurd hc (by simp)
        · intro hc
          rw [(findBestWorker_none_iff mc ut p).mpr hc] at hf
          exact absurd hf (by simp)
  · intro wid h
    unfold assignSession at h
    cases hf : findBestWorker mc ut p with
    | none =>
        rw [hf] at h
        exact absurd h (by simp)
    | some wid2 =>
        rw [hf] at h
        simp only [if_pos rfl] at h
        have hw2 : wid2 = wid := Option.some.inj h
        obtain ⟨w, hmem, hid⟩ := findBestWorker_some_online hf
        obtain ⟨hwk, hst⟩ := List.mem_filter.mp hmem
        exact ⟨w, hwk, by rw [hid, hw2], by simpa using hst⟩

/-- C3 witness at the full single-worker pool. -/
theorem assign_no_capacity_check_witness :
    ∃ w, w ∈ pC3.workers ∧ w.id = "W" ∧ w.status = WStatus.online :=
  (assign_no_capacity_check false "s1" "free" pC3).2 "W" (by decide)

/-- C4 (amended): only the `"premium"` tier is special-cased. Premium
always receives a minimal-score Online worker; every other tier —
including Admin — receives a minimal-score worker only while memory is
not critical, and under memory pressure is routed to the worker at rank
`min(n - 1, n / 2)` of the score-sorted Online list
(`admin_tier_counterexample` shows Admin losing the lowest-score worker). -/
theorem findBestWorker_tiers (p : Pool) (ut : String) (mc : Bool)
    (hne : onlineWorkers p ≠ []) :
    ((ut = "premium" ∨ mc = false) →
      ∃ w, w ∈ onlineWorkers p ∧ findBestWorker mc ut p = some w.id ∧
        ∀ v ∈ onlineWorkers p, loadScore w ≤ loadScore v) ∧
    (ut ≠ "premium" → mc = true →
      ∃ w, (sortByScore (onlineWorkers p)).get?
          (min ((onlineWorkers p).length - 1) ((onlineWorkers p).length / 2))
          = some w ∧ findBestWorker mc ut p = some w.id) := by
  have hemp : ((onlineWorkers p).isEmpty = true) → False := by
    intro hc
    rw [List.isEmpty_iff] at hc
    exact hne hc
  obtain ⟨w, ws, hsort⟩ := sortByScore_ne_nil hne
  constructor
  · intro hd
    refine ⟨w, mem_sortByScore.mp (by rw [hsort]; exact List.mem_cons_self w ws),
      ?_, sorted_head_min hsort⟩
    unfold findBestWorker
    rw [if_neg hemp]
    rcases hd with hput | hmcf
    · rw [if_pos (by simp [hput]), hsort]
      rfl
    · by_cases hput : (ut == "premium") = true
      · rw [if_pos hput, hsort]
        rfl
      · rw [if_neg hput, if_neg (by simp [hmcf]), hsort]
        rfl
  · intro hput hmc
    have hput2 : ((ut == "premium") = true) → False := by
      intro hc
      exact hput (by simpa using hc)
    have hidx : min ((sortByScore (onlineWorkers p)).length - 1)
        ((sortByScore (onlineWorkers p)).length / 2)
        < (sortByScore (onlineWorkers p)).length := by
      rw [hsort]
      simp only [List.length_cons]
      omega
    obtain ⟨v, hv⟩ : ∃ v, (sortByScore (onlineWorkers p)).get?
        (min ((sortByScore (onlineWorkers p)).length - 1)
          ((sortByScore (onlineWorkers p)).length / 2)) = some v := by
      cases hg : (sortByScore (onlineWorkers p)).get?
          (min ((sortByScore (onlineWorkers p)).length - 1)
            ((sortByScore (onlineWorkers p)).length / 2)) with
      | none =>
          rw [List.get?_eq_none] at hg
          omega
      | some v => exact ⟨v, rfl⟩
    have hv2 := hv
    rw [length_sortByScore] at hv2
    refine ⟨v, hv2, ?_⟩
    unfold findBestWorker
    rw [if_neg hemp, if_neg hput2, if_pos hmc]
    rw [hv]
    rfl

/-- C4 witness: a premium assignment on the three-worker pool lands on a
minimal-score online worker. -/
theorem findBestWorker_tiers_witness :
    ∃ w, w ∈ onlineWorkers pC4 ∧
      findBestWorker false "premium" pC4 = some w.id ∧
      ∀ v ∈ onlineWorkers pC4, loadScore w ≤ loadScore v :=
  (findBestWorker_tiers pC4 "premium" false (by decide)).1 (Or.inl rfl)

end TFX
